import Mathlib

/-!
Shallow embedding of `scripts/publish_playstore.py` (a Play-Store release
publishing script) and proofs about its release-track reconciliation logic.

JSON objects are modelled as association lists of key/value pairs in
insertion order, matching Python `dict` semantics for the operations the
script uses (`k in d`, `d[k]`, `d.get(k)`, `d[k] = v`).  Python strings are
sequences of Unicode code points, modelled as `String` / `List Char`.
-/

/-- JSON values as manipulated by the script.  Numbers are modelled as exact
rationals (the script performs no arithmetic on them). -/
inductive JVal where
  | null
  | bool (b : Bool)
  | num (q : Rat)
  | str (s : String)
  | arr (xs : List JVal)
  | obj (fields : List (String × JVal))

/-- Model of a Python `dict` holding one JSON object: key/value pairs in
insertion order. -/
abbrev Dict := List (String × JVal)

/-- Model of `d.get(k)` / `d[k]` on a Python dict (first matching key). -/
def lookup : Dict → String → Option JVal
  | [], _ => none
  | (k, v) :: rest, key => if k == key then some v else lookup rest key

/-- Model of `d[k] = v` on a Python dict: overwrite the value in place if the
key exists, else append the pair at the end. -/
def setKey : Dict → String → JVal → Dict
  | [], k, v => [(k, v)]
  | (k', v') :: rest, k, v =>
      if k' == k then (k, v) :: rest else (k', v') :: setKey rest k v

/-- Whether a JSON value is `null` (Python `None`). -/
def JVal.isNull : JVal → Bool
  | .null => true
  | _ => false

/-- The recognized release fields, in the order `keep_fields` iterates them
(source lines 129-137). -/
def RECOGNIZED : List String :=
  ["name", "versionCodes", "status", "userFraction",
   "countryTargeting", "releaseNotes", "inAppUpdatePriority"]

/-- One step of `keep_fields`: `if k in r and r[k] is not None: out[k] = r[k]`. -/
def keepField (r : Dict) (k : String) : Option (String × JVal) :=
  match lookup r k with
  | some v => if v.isNull then none else some (k, v)
  | none => none

/-- Model of `keep_fields` (source lines 127-140): copy only the recognized
fields, dropping absent and `None`-valued ones. -/
def keep_fields (r : Dict) : Dict :=
  RECOGNIZED.filterMap (keepField r)

/-- Model of the Python comparison `r.get("status") == s` for a string `s`
(`None` and non-string values compare unequal to a `str`). -/
def statusIs (r : Dict) (s : String) : Bool :=
  match lookup r "status" with
  | some (JVal.str t) => t == s
  | _ => false

/-- Number of releases in `l` whose status is the string `s`. -/
def countStatus (l : List Dict) (s : String) : Nat :=
  (l.filter (fun r => statusIs r s)).length

/-- Model of `has_inprogress = any(r.get("status") == "inProgress" for r in releases_a)`
(source line 227). -/
def hasInProgress (l : List Dict) : Bool :=
  l.any (fun r => statusIs r "inProgress")

/-- Model of the Pass-A loop body (source lines 230-242): returns the list
`new_releases_a` together with the final `halted_previous` flag.  Drafts are
dropped, every kept entry passes through `keep_fields`, and an `inProgress`
entry has its status rewritten to `halted` (setting the flag). -/
def passALoop : List Dict → List Dict × Bool
  | [] => ([], false)
  | r :: rest =>
      let (tail, hp) := passALoop rest
      if statusIs r "draft" then (tail, hp)
      else if statusIs r "inProgress" then
        (setKey (keep_fields r) "status" (JVal.str "halted") :: tail, true)
      else (keep_fields r :: tail, hp)

/-- The per-entry transformation the Pass-A loop applies, as a single map:
drop drafts, halt `inProgress`, keep recognized fields of the rest. -/
def passAEntry (r : Dict) : Option Dict :=
  if statusIs r "draft" then none
  else if statusIs r "inProgress" then
    some (setKey (keep_fields r) "status" (JVal.str "halted"))
  else some (keep_fields r)

/-- Model of the Pass-B completed-only filter (source lines 263-266). -/
def completedOnly : List Dict → List Dict
  | [] => []
  | r :: rest =>
      if statusIs r "completed" then keep_fields r :: completedOnly rest
      else completedOnly rest

/-- Model of Python `s.split(sep)` for a one-character separator, at the
code-point level. -/
def splitChar (c : Char) : List Char → List (List Char)
  | [] => [[]]
  | x :: xs =>
      let r := splitChar c xs
      if x == c then [] :: r
      else
        match r with
        | [] => [[x]]
        | h :: t => (x :: h) :: t

/-- Model of `infer_locale_from_whatsnew` (source lines 164-168):
`base = notes_file.split("/")[-1]`, then `base[len("whatsnew-"):]` when
`base.startswith("whatsnew-")`, else `"en-US"`.  Python string tests and
slices are code-point based, hence the `List Char` operations. -/
def infer_locale_from_whatsnew (notes_file : String) : String :=
  let base : List Char := (splitChar '/' notes_file.toList).getLastD []
  if "whatsnew-".toList.isPrefixOf base then
    String.mk (base.drop "whatsnew-".length)
  else "en-US"

/-- Model of `truncate_unicode` (source lines 32-38): `arr = list(s)`, pass
through when `len(arr) <= max_chars`, else truncate to `max_chars - 1` code
points plus a trailing ellipsis character. -/
def truncate_unicode (s : String) (max_chars : Nat) : String :=
  let arr := s.toList
  if arr.length ≤ max_chars then s
  else if max_chars ≤ 1 then "…"
  else String.mk (arr.take (max_chars - 1)) ++ "…"

/-- Model of Python `str.strip()`: remove whitespace code points from both
ends. -/
def pyStrip (s : String) : String :=
  String.mk (((s.toList.dropWhile Char.isWhitespace).reverse.dropWhile
      Char.isWhitespace).reverse)

/-- Modelled from the spec: Python's `float()` applied to the decimal strings
this script passes (e.g. `"0.99"`), as an exact rational; the script stores
the parsed user fraction without doing arithmetic on it. -/
def pyFloat (s : String) : Rat :=
  let t := s.toList
  let neg := t.headD ' ' == '-'
  let t := if neg then t.drop 1 else t
  let intPart := t.takeWhile Char.isDigit
  let rest := t.dropWhile Char.isDigit
  let frac :=
    match rest with
    | '.' :: f => f.takeWhile Char.isDigit
    | _ => []
  let digitsToNat : List Char → Nat :=
    fun ds => ds.foldl (fun a c => a * 10 + (c.toNat - '0'.toNat)) 0
  let v : Rat := (digitsToNat intPart : Rat) + (digitsToNat frac : Rat) / ((10 : Rat) ^ frac.length)
  if neg then -v else v

/-- Model of the `new_release` dict literal built in Pass B (source lines
271-279), with the fields in source order. -/
def new_release (release_name user_fraction country version_code locale notes_text : String) : Dict :=
  [("name", JVal.str release_name),
   ("status", JVal.str "inProgress"),
   ("userFraction", JVal.num (pyFloat user_fraction)),
   ("countryTargeting", JVal.obj
      [("countries", JVal.arr [JVal.str country]),
       ("includeRestOfWorld", JVal.bool false)]),
   ("versionCodes", JVal.arr [JVal.str version_code]),
   ("releaseNotes", JVal.arr
      [JVal.obj [("language", JVal.str locale), ("text", JVal.str notes_text)]]),
   ("inAppUpdatePriority", JVal.num 0)]

/-- A release entry is clean when every field is recognized and non-null;
claim C4 asserts this of every written payload. -/
def cleanEntry (d : Dict) : Bool :=
  d.all (fun kv => RECOGNIZED.contains kv.1 && !(kv.2.isNull))

/-- Failure of an external-API call (the script raises `RuntimeError` carrying
the HTTP status code, source lines 53-55). -/
structure ApiError where
  code : Nat
deriving DecidableEq

/-- The track response shape the script relies on: a name and a release list
(`track_a.get("releases", []) or []`, source line 223). -/
structure Track where
  track : String
  releases : List Dict

/-- One external-API call, as recorded in a run trace.  Calls that belong to
an edit transaction carry the edit id they were addressed to. -/
inductive Event where
  | createEdit
  | getTrack (editId : String)
  | updateTrack (editId : String) (releases : List Dict)
  | commitEdit (editId : String)
  | uploadBundle (editId : String)
  | uploadSymbols (editId : String) (versionCode : String)

/-- Responses the external API would give to each call the script makes, in
program order.  `fetchTrackA`/`fetchTrackB` are the raw GET results inside
`get_track` (before its error absorption). -/
structure Env where
  createEditA : Except ApiError String
  fetchTrackA : Except ApiError Track
  updateTrackA : Except ApiError Unit
  commitA : Except ApiError Unit
  createEditB : Except ApiError String
  uploadBundleRes : Except ApiError Nat
  uploadSymbolsRes : Except ApiError Unit
  fetchTrackB : Except ApiError Track
  updateTrackB : Except ApiError Unit
  commitB : Except ApiError Unit

/-- The command-line inputs that feed Pass B, plus the content read from the
notes file. -/
structure Args where
  releaseName : String
  country : String
  userFraction : String
  notesFilePath : String
  notesFileContent : String

/-- What the script records on success: `str(bundle["versionCode"])` and the
`halted_previous` flag written to `play_outputs.json`. -/
structure MainOutcome where
  versionCode : String
  haltedPrevious : Bool

/-- Model of `get_track` (source lines 148-152): a failed GET is caught and
replaced with `{"track": track, "releases": []}`; it never propagates the
error. -/
def get_track (fetch : Except ApiError Track) (track : String) : Except ApiError Track :=
  match fetch with
  | .ok t => .ok t
  | .error _ => .ok ⟨track, []⟩

/-- Model of `upload_bundle_and_symbols` (source lines 171-189): upload the
bundle, take `str(bundle["versionCode"])`, then upload the symbols addressed
to that version code.  Returns the result and the trace of upload calls. -/
def upload_bundle_and_symbols (env : Env) (edit_id_b : String) :
    Except ApiError String × List Event :=
  match env.uploadBundleRes with
  | .error e => (.error e, [.uploadBundle edit_id_b])
  | .ok vcNat =>
      let version_code := toString vcNat
      match env.uploadSymbolsRes with
      | .error e =>
          (.error e, [.uploadBundle edit_id_b, .uploadSymbols edit_id_b version_code])
      | .ok _ =>
          (.ok version_code, [.uploadBundle edit_id_b, .uploadSymbols edit_id_b version_code])

/-- Model of Phase 2 of `main` (source lines 256-288): create a second edit,
upload bundle and symbols, fetch the track, keep only completed releases,
append the one new `inProgress` release and commit.  `tr` is the trace of the
calls already made in Phase 1. -/
def runPassB (env : Env) (args : Args) (trackName : String) (hp : Bool)
    (tr : List Event) : Except ApiError MainOutcome × List Event :=
  match env.createEditB with
  | .error e => (.error e, tr ++ [.createEdit])
  | .ok edit_id_b =>
      match upload_bundle_and_symbols env edit_id_b with
      | (.error e, utr) => (.error e, tr ++ .createEdit :: utr)
      | (.ok version_code, utr) =>
          match get_track env.fetchTrackB trackName with
          | .error e => (.error e, tr ++ .createEdit :: utr ++ [.getTrack edit_id_b])
          | .ok track_b =>
              let completed_only := completedOnly track_b.releases
              let locale := infer_locale_from_whatsnew args.notesFilePath
              let notes_text := pyStrip args.notesFileContent
              let newRel := new_release args.releaseName args.userFraction args.country
                  version_code locale notes_text
              let releases_out := completed_only ++ [newRel]
              match env.updateTrackB with
              | .error e =>
                  (.error e, tr ++ .createEdit :: utr ++
                    [.getTrack edit_id_b, .updateTrack edit_id_b releases_out])
              | .ok _ =>
                  match env.commitB with
                  | .error e =>
                      (.error e, tr ++ .createEdit :: utr ++
                        [.getTrack edit_id_b, .updateTrack edit_id_b releases_out,
                         .commitEdit edit_id_b])
                  | .ok _ =>
                      (.ok ⟨version_code, hp⟩, tr ++ .createEdit :: utr ++
                        [.getTrack edit_id_b, .updateTrack edit_id_b releases_out,
                         .commitEdit edit_id_b])

/-- Model of `main` after argument parsing and token minting (source lines
216-288): Phase 1 halts any `inProgress` rollout in its own commit (or
abandons the edit when there is none), then Phase 2 runs. -/
def runMain (env : Env) (args : Args) (trackName : String) :
    Except ApiError MainOutcome × List Event :=
  match env.createEditA with
  | .error e => (.error e, [.createEdit])
  | .ok edit_id_a =>
      match get_track env.fetchTrackA trackName with
      | .error e => (.error e, [.createEdit, .getTrack edit_id_a])
      | .ok track_a =>
          let releases_a := track_a.releases
          if hasInProgress releases_a then
            let (new_releases_a, hp) := passALoop releases_a
            match env.updateTrackA with
            | .error e =>
                (.error e, [.createEdit, .getTrack edit_id_a,
                  .updateTrack edit_id_a new_releases_a])
            | .ok _ =>
                match env.commitA with
                | .error e =>
                    (.error e, [.createEdit, .getTrack edit_id_a,
                      .updateTrack edit_id_a new_releases_a, .commitEdit edit_id_a])
                | .ok _ =>
                    runPassB env args trackName hp
                      [.createEdit, .getTrack edit_id_a,
                       .updateTrack edit_id_a new_releases_a, .commitEdit edit_id_a]
          else
            runPassB env args trackName false [.createEdit, .getTrack edit_id_a]

/-- Whether an event is a track write or a commit addressed to the given edit
id. -/
def touchesEdit (editId : String) : Event → Bool
  | .updateTrack i _ => i == editId
  | .commitEdit i => i == editId
  | _ => false

/-- Replace the two raw track-fetch responses of an environment, leaving every
other response unchanged. -/
def envWithFetches (env : Env) (a b : Except ApiError Track) : Env :=
  ⟨env.createEditA, a, env.updateTrackA, env.commitA, env.createEditB,
   env.uploadBundleRes, env.uploadSymbolsRes, b, env.updateTrackB, env.commitB⟩

/-! ### Concrete inputs used as witnesses and counterexamples -/

/-- A release list holding one already-`halted` release followed by one
`inProgress` release. -/
def exHaltedThenInProgress : List Dict :=
  [[("status", JVal.str "halted")], [("status", JVal.str "inProgress")]]

/-- A release list holding one `completed` release (with an unrecognized
field) followed by one `inProgress` release. -/
def exCompletedThenInProgress : List Dict :=
  [[("status", JVal.str "completed"), ("foo", JVal.str "x")],
   [("status", JVal.str "inProgress")]]

/-- A production track carrying a single `inProgress` release. -/
def trackInProgress : Track :=
  ⟨"production", [[("status", JVal.str "inProgress")]]⟩

/-- A production track with no releases. -/
def trackEmpty : Track := ⟨"production", []⟩

/-- Concrete command-line inputs. -/
def argsEx : Args := ⟨"1.2.3", "BD", "0.99", "whatsnew-en-US", " notes \n"⟩

/-- An environment where every call succeeds and the track is empty. -/
def envHappy : Env :=
  ⟨.ok "A", .ok trackEmpty, .ok (), .ok (), .ok "B", .ok 11, .ok (),
   .ok trackEmpty, .ok (), .ok ()⟩

/-- An environment whose Pass-A track read fails and everything else
succeeds. -/
def envReadFail : Env :=
  ⟨.ok "A", .error ⟨418⟩, .ok (), .ok (), .ok "B", .ok 11, .ok (),
   .ok trackEmpty, .ok (), .ok ()⟩

/-- An environment where both track reads fail. -/
def envBothReadsFail : Env :=
  ⟨.ok "A", .error ⟨404⟩, .ok (), .ok (), .ok "B", .ok 11, .ok (),
   .error ⟨404⟩, .ok (), .ok ()⟩

/-- An environment where the Pass-A track update fails. -/
def envUpdateAFail : Env :=
  ⟨.ok "A", .ok trackInProgress, .error ⟨500⟩, .ok (), .ok "B", .ok 11, .ok (),
   .ok trackEmpty, .ok (), .ok ()⟩

/-- An environment where the Pass-B commit fails. -/
def envCommitBFail : Env :=
  ⟨.ok "A", .ok trackEmpty, .ok (), .ok (), .ok "B", .ok 11, .ok (),
   .ok trackEmpty, .ok (), .error ⟨503⟩⟩

/-- An environment where the bundle upload fails. -/
def envUploadFail : Env :=
  ⟨.ok "A", .ok trackEmpty, .ok (), .ok (), .ok "B", .error ⟨507⟩, .ok (),
   .ok trackEmpty, .ok (), .ok ()⟩

/-! ### Helper lemmas -/

theorem statusIs_new_release (a b c d e f s : String) :
    statusIs (new_release a b c d e f) s = ("inProgress" == s) := by
  simp [new_release, statusIs, lookup]

theorem lookup_setKey_self (d : Dict) (k : String) (v : JVal) :
    lookup (setKey d k v) k = some v := by
  induction d with
  | nil => simp [setKey, lookup]
  | cons kv rest ih =>
      obtain ⟨k', v'⟩ := kv
      by_cases h : k' = k
      · simp [setKey, lookup, h]
      · simp [setKey, lookup, h, ih]

/-- A release has at most one status: if it is `s`, it is not any other
string. -/
theorem statusIs_unique {r : Dict} {s t : String} (h : statusIs r s = true)
    (hne : t ≠ s) : statusIs r t = false := by
  cases hl : lookup r "status" with
  | none => simp [statusIs, hl] at h
  | some v =>
      cases v with
      | str u =>
          simp only [statusIs, hl, beq_iff_eq] at h
          simp only [statusIs, hl, beq_eq_false_iff_ne]
          subst h
          exact Ne.symm hne
      | null => simp [statusIs, hl] at h
      | bool b => simp [statusIs, hl] at h
      | num q => simp [statusIs, hl] at h
      | arr xs => simp [statusIs, hl] at h
      | obj fs => simp [statusIs, hl] at h

/-- Looking up a key in the allowlisted copy of a release: present iff the key
is on the key list and the original value exists and is non-null. -/
theorem lookup_filterMap_keepField (r : Dict) (keys : List String) (key : String) :
    lookup (keys.filterMap (keepField r)) key =
      if key ∈ keys then
        (lookup r key).bind (fun v => if v.isNull then none else some v)
      else none := by
  induction keys with
  | nil => simp [lookup]
  | cons k ks ih =>
      by_cases hk : k = key
      · subst hk
        simp only [List.filterMap_cons, List.mem_cons, true_or, if_true]
        cases hl : lookup r k with
        | none => simpa [keepField, hl] using ih
        | some v =>
            by_cases hn : v.isNull
            · simpa [keepField, hl, hn] using ih
            · simp [keepField, hl, hn, lookup]
      · simp only [List.filterMap_cons, List.mem_cons]
        have hif : (key = k ∨ key ∈ ks) ↔ key ∈ ks := by
          constructor
          · rintro (h | h)
            · exact absurd h.symm hk
            · exact h
          · exact Or.inr
        cases hl : lookup r k with
        | none => simp [keepField, hl, ih, hif]
        | some v =>
            by_cases hn : v.isNull
            · simp [keepField, hl, hn, ih, hif]
            · simp [keepField, hl, hn, lookup, hk, ih, hif]

/-- `keep_fields` preserves the status comparison: the `status` field is on
the allowlist and a string status is never null. -/
theorem statusIs_keep_fields (r : Dict) (s : String) :
    statusIs (keep_fields r) s = statusIs r s := by
  unfold statusIs keep_fields
  rw [lookup_filterMap_keepField]
  have hmem : "status" ∈ RECOGNIZED := by simp [RECOGNIZED]
  rw [if_pos hmem]
  cases hl : lookup r "status" with
  | none => simp
  | some v => cases v <;> simp [JVal.isNull]

/-- Status of an entry whose `status` field was just overwritten. -/
theorem statusIs_setKey (d : Dict) (t s : String) :
    statusIs (setKey d "status" (JVal.str t)) s = (t == s) := by
  unfold statusIs
  rw [lookup_setKey_self]

theorem countStatus_cons (r : Dict) (l : List Dict) (s : String) :
    countStatus (r :: l) s = countStatus l s + (if statusIs r s = true then 1 else 0) := by
  by_cases h : statusIs r s = true <;> simp [countStatus, List.filter_cons, h]

/-- Pass A's output never contains an `inProgress` entry. -/
theorem passA_count_inProgress (l : List Dict) :
    countStatus (l.filterMap passAEntry) "inProgress" = 0 := by
  induction l with
  | nil => simp [countStatus]
  | cons r rest ih =>
      by_cases hd : statusIs r "draft" = true
      · simpa [passAEntry, hd] using ih
      · by_cases hip : statusIs r "inProgress" = true
        · have : statusIs (setKey (keep_fields r) "status" (JVal.str "halted"))
              "inProgress" = false := by
            rw [statusIs_setKey]; decide
          simp [passAEntry, hd, hip, List.filterMap_cons, countStatus_cons, ih, this]
        · simp [passAEntry, hd, hip, List.filterMap_cons, countStatus_cons, ih,
            statusIs_keep_fields, eq_false_of_ne_true hip]

/-- Pass A's output never contains a `draft` entry. -/
theorem passA_count_draft (l : List Dict) :
    countStatus (l.filterMap passAEntry) "draft" = 0 := by
  induction l with
  | nil => simp [countStatus]
  | cons r rest ih =>
      by_cases hd : statusIs r "draft" = true
      · simpa [passAEntry, hd] using ih
      · by_cases hip : statusIs r "inProgress" = true
        · have : statusIs (setKey (keep_fields r) "status" (JVal.str "halted"))
              "draft" = false := by
            rw [statusIs_setKey]; decide
          simp [passAEntry, hd, hip, List.filterMap_cons, countStatus_cons, ih, this]
        · simp [passAEntry, hd, hip, List.filterMap_cons, countStatus_cons, ih,
            statusIs_keep_fields, eq_false_of_ne_true hd]

/-- Every `halted` entry of Pass A's output is either a kept `halted` input
entry or a rewritten `inProgress` one. -/
theorem passA_count_halted (l : List Dict) :
    countStatus (l.filterMap passAEntry) "halted" =
      countStatus l "halted" + countStatus l "inProgress" := by
  induction l with
  | nil => simp [countStatus]
  | cons r rest ih =>
      by_cases hd : statusIs r "draft" = true
      · have hh : statusIs r "halted" = false := statusIs_unique hd (by decide)
        have hip : statusIs r "inProgress" = false := statusIs_unique hd (by decide)
        simp [passAEntry, hd, countStatus_cons, ih, hh, hip]
      · by_cases hip : statusIs r "inProgress" = true
        · have hset : statusIs (setKey (keep_fields r) "status" (JVal.str "halted"))
              "halted" = true := by
            rw [statusIs_setKey]; decide
          have hh : statusIs r "halted" = false := statusIs_unique hip (by decide)
          simp only [passAEntry, hd, hip, if_false, if_true, List.filterMap_cons,
            eq_false_of_ne_true hd, Bool.false_eq_true, countStatus_cons, ih, hset, hh]
          omega
        · simp only [passAEntry, hd, hip, List.filterMap_cons, if_false,
            eq_false_of_ne_true hd, eq_false_of_ne_true hip, Bool.false_eq_true,
            countStatus_cons, ih, statusIs_keep_fields]
          omega

/-- Every field kept by `keep_fields` is recognized and non-null. -/
theorem cleanEntry_keep_fields (r : Dict) : cleanEntry (keep_fields r) = true := by
  unfold cleanEntry keep_fields
  rw [List.all_eq_true]
  intro kv hkv
  rw [List.mem_filterMap] at hkv
  obtain ⟨k, hk, hkeep⟩ := hkv
  unfold keepField at hkeep
  cases hl : lookup r k with
  | none => rw [hl] at hkeep; simp at hkeep
  | some v =>
      rw [hl] at hkeep
      by_cases hn : v.isNull
      · simp [hn] at hkeep
      · simp only [hn, Bool.false_eq_true, if_false, Option.some.injEq] at hkeep
        subst hkeep
        have hvf : v.isNull = false := by revert hn; cases v.isNull <;> simp
        rw [Bool.and_eq_true]
        refine ⟨?_, by simp [hvf]⟩
        simpa [List.contains, List.elem_iff] using hk

/-- Overwriting a recognized field with a non-null value keeps an entry
clean. -/
theorem cleanEntry_setKey {d : Dict} {k : String} {v : JVal}
    (hk : k ∈ RECOGNIZED) (hv : v.isNull = false) (hd : cleanEntry d = true) :
    cleanEntry (setKey d k v) = true := by
  have hkc : RECOGNIZED.contains k = true := by
    simpa [List.contains, List.elem_iff] using hk
  induction d with
  | nil => simp [setKey, cleanEntry, hkc, hv, hk]
  | cons kv' rest ih =>
      obtain ⟨k', v'⟩ := kv'
      simp only [cleanEntry, List.all_cons, Bool.and_eq_true] at hd
      by_cases h : (k' == k) = true
      · simp only [setKey, h, if_true]
        simp only [cleanEntry, List.all_cons, Bool.and_eq_true]
        exact ⟨⟨hkc, by simp [hv]⟩, hd.2⟩
      · have hcl : cleanEntry (setKey rest k v) = true := ih hd.2
        simp only [setKey]
        rw [if_neg h]
        simp only [cleanEntry, List.all_cons, Bool.and_eq_true]
        refine ⟨hd.1, ?_⟩
        simpa [cleanEntry] using hcl

/-- Entries kept by Pass B's filter all carry status `completed`. -/
theorem statusIs_of_mem_completedOnly {l : List Dict} {r : Dict}
    (h : r ∈ completedOnly l) : statusIs r "completed" = true := by
  induction l with
  | nil => simp [completedOnly] at h
  | cons a rest ih =>
      by_cases hc : statusIs a "completed" = true
      · rw [completedOnly, if_pos hc, List.mem_cons] at h
        rcases h with h | h
        · subst h; rw [statusIs_keep_fields]; exact hc
        · exact ih h
      · rw [completedOnly, if_neg hc] at h
        exact ih h

/-- The Pass-A loop is the per-entry transformation mapped over the list, and
its flag is exactly `has_inprogress`. -/
theorem passALoop_eq (l : List Dict) :
    passALoop l = (l.filterMap passAEntry, hasInProgress l) := by
  induction l with
  | nil => simp [passALoop, hasInProgress]
  | cons r rest ih =>
      by_cases hd : statusIs r "draft" = true
      · have hip : statusIs r "inProgress" = false :=
          statusIs_unique hd (by decide)
        simp [passALoop, ih, passAEntry, hasInProgress, hd, hip]
      · by_cases hip : statusIs r "inProgress" = true
        · simp [passALoop, ih, passAEntry, hasInProgress, hd, hip]
        · simp [passALoop, ih, passAEntry, hasInProgress, hd, hip]

/-- The newly constructed release carries only recognized, non-null fields. -/
theorem cleanEntry_new_release (a b c d e f : String) :
    cleanEntry (new_release a b c d e f) = true := by
  simp [cleanEntry, new_release, RECOGNIZED, JVal.isNull, List.contains, List.elem]

/-- Every entry Pass A emits is clean. -/
theorem cleanEntry_of_mem_passA {l : List Dict} {d : Dict}
    (h : d ∈ l.filterMap passAEntry) : cleanEntry d = true := by
  rw [List.mem_filterMap] at h
  obtain ⟨r, _, hr⟩ := h
  unfold passAEntry at hr
  by_cases h1 : statusIs r "draft" = true
  · rw [if_pos h1] at hr; simp at hr
  · rw [if_neg h1] at hr
    by_cases h2 : statusIs r "inProgress" = true
    · rw [if_pos h2, Option.some.injEq] at hr
      subst hr
      exact cleanEntry_setKey (by simp [RECOGNIZED]) rfl (cleanEntry_keep_fields r)
    · rw [if_neg h2, Option.some.injEq] at hr
      subst hr
      exact cleanEntry_keep_fields r

/-- Every entry Pass B keeps from the fetched track is clean. -/
theorem cleanEntry_of_mem_completedOnly {l : List Dict} {r : Dict}
    (h : r ∈ completedOnly l) : cleanEntry r = true := by
  induction l with
  | nil => simp [completedOnly] at h
  | cons a rest ih =>
      by_cases hc : statusIs a "completed" = true
      · rw [completedOnly, if_pos hc, List.mem_cons] at h
        rcases h with h | h
        · subst h; exact cleanEntry_keep_fields a
        · exact ih h
      · rw [completedOnly, if_neg hc] at h
        exact ih h

theorem touchesEdit_createEdit (ea : String) :
    touchesEdit ea .createEdit = false := rfl

theorem touchesEdit_getTrack (ea i : String) :
    touchesEdit ea (.getTrack i) = false := rfl

theorem touchesEdit_uploadBundle (ea i : String) :
    touchesEdit ea (.uploadBundle i) = false := rfl

theorem touchesEdit_uploadSymbols (ea i vc : String) :
    touchesEdit ea (.uploadSymbols i vc) = false := rfl

theorem touchesEdit_updateTrack (ea i : String) (rel : List Dict) :
    touchesEdit ea (.updateTrack i rel) = (i == ea) := rfl

theorem touchesEdit_commitEdit (ea i : String) :
    touchesEdit ea (.commitEdit i) = (i == ea) := rfl

/-- Phase 2 never writes to or commits a foreign edit id. -/
theorem runPassB_no_foreign_writes (env : Env) (args : Args) (tn : String)
    (hp : Bool) (tr : List Event) (ea : String)
    (htr : tr.all (fun ev => !(touchesEdit ea ev)) = true)
    (hB : ∀ s, env.createEditB = .ok s → s ≠ ea) :
    (runPassB env args tn hp tr).2.all (fun ev => !(touchesEdit ea ev)) = true := by
  rcases hcb : env.createEditB with e | eb
  · simp [runPassB, hcb, List.all_append, htr, touchesEdit_createEdit]
  · have hne : (eb == ea) = false := beq_eq_false_iff_ne.mpr (hB eb hcb)
    rcases hub : env.uploadBundleRes with e1 | vc
    · simp [runPassB, hcb, upload_bundle_and_symbols, hub, List.all_append, htr,
        touchesEdit_createEdit, touchesEdit_uploadBundle]
    · rcases hus : env.uploadSymbolsRes with e2 | u <;>
        rcases hfb : env.fetchTrackB with e3 | tb <;>
        rcases hutb : env.updateTrackB with e4 | u4 <;>
        rcases hcmb : env.commitB with e5 | u5 <;>
        simp [runPassB, hcb, upload_bundle_and_symbols, hub, hus, get_track, hfb,
          hutb, hcmb, List.all_append, htr, hne, touchesEdit_createEdit,
          touchesEdit_getTrack, touchesEdit_uploadBundle, touchesEdit_uploadSymbols,
          touchesEdit_updateTrack, touchesEdit_commitEdit]

/-- If Phase 2 succeeds, it reports the flag it was given and both its track
update and its commit were accepted. -/
theorem runPassB_ok_inversion (env : Env) (args : Args) (tn : String)
    (hp : Bool) (tr : List Event) (o : MainOutcome)
    (h : (runPassB env args tn hp tr).1 = .ok o) :
    o.haltedPrevious = hp ∧ env.updateTrackB = .ok () ∧ env.commitB = .ok () := by
  obtain ⟨ov, oh⟩ := o
  rcases hcb : env.createEditB with e | eb
  · simp [runPassB, hcb] at h
  · rcases hub : env.uploadBundleRes with e1 | vc
    · simp [runPassB, hcb, upload_bundle_and_symbols, hub] at h
    · rcases hus : env.uploadSymbolsRes with e2 | u
      · simp [runPassB, hcb, upload_bundle_and_symbols, hub, hus] at h
      · rcases hfb : env.fetchTrackB with e3 | tb
        · rcases hutb : env.updateTrackB with e4 | u4
          · simp [runPassB, hcb, upload_bundle_and_symbols, hub, hus, get_track,
              hfb, hutb] at h
          · rcases hcmb : env.commitB with e5 | u5
            · simp [runPassB, hcb, upload_bundle_and_symbols, hub, hus, get_track,
                hfb, hutb, hcmb] at h
            · simp only [runPassB, hcb, upload_bundle_and_symbols, hub, hus,
                get_track, hfb, hutb, hcmb, Except.ok.injEq,
                MainOutcome.mk.injEq] at h
              cases u4; cases u5
              exact ⟨h.2.symm, rfl, rfl⟩
        · rcases hutb : env.updateTrackB with e4 | u4
          · simp [runPassB, hcb, upload_bundle_and_symbols, hub, hus, get_track,
              hfb, hutb] at h
          · rcases hcmb : env.commitB with e5 | u5
            · simp [runPassB, hcb, upload_bundle_and_symbols, hub, hus, get_track,
                hfb, hutb, hcmb] at h
            · simp only [runPassB, hcb, upload_bundle_and_symbols, hub, hus,
                get_track, hfb, hutb, hcmb, Except.ok.injEq,
                MainOutcome.mk.injEq] at h
              cases u4; cases u5
              exact ⟨h.2.symm, rfl, rfl⟩

/-- If the whole run succeeds, Pass B's track update and commit were
accepted. -/
theorem runMain_ok_inversion (env : Env) (args : Args) (tn : String)
    (o : MainOutcome) (h : (runMain env args tn).1 = .ok o) :
    env.updateTrackB = .ok () ∧ env.commitB = .ok () := by
  rcases hca : env.createEditA with e | ea
  · simp [runMain, hca] at h
  · rcases hfa : env.fetchTrackA with e1 | ta
    · simp only [runMain, hca, get_track, hfa] at h
      by_cases hip : hasInProgress (Track.mk tn []).releases = true
      · simp [hasInProgress] at hip
      · rw [if_neg hip] at h
        exact (runPassB_ok_inversion _ _ _ _ _ _ h).2
    · simp only [runMain, hca, get_track, hfa] at h
      by_cases hip : hasInProgress ta.releases = true
      · rw [if_pos hip, passALoop_eq] at h
        rcases huta : env.updateTrackA with e2 | u2
        · simp [huta] at h
        · rcases hcma : env.commitA with e3 | u3
          · simp [huta, hcma] at h
          · simp only [huta, hcma] at h
            exact (runPassB_ok_inversion _ _ _ _ _ _ h).2
      · rw [if_neg hip] at h
        exact (runPassB_ok_inversion _ _ _ _ _ _ h).2

/-! ### Claims -/

/-- C1: for every release list fetched in Pass B, the written list
`completed_only + [new_release]` contains exactly one entry whose status is
not `completed`, that entry is last and is the newly constructed `inProgress`
release, and no written entry has status `draft` or `halted`. -/
theorem c1_passB_single_staged (lB : List Dict) (rn uf co vc lo nt : String) :
    ((completedOnly lB ++ [new_release rn uf co vc lo nt]).filter
        (fun r => !(statusIs r "completed"))).length = 1
    ∧ (completedOnly lB ++ [new_release rn uf co vc lo nt]).getLast?
        = some (new_release rn uf co vc lo nt)
    ∧ statusIs (new_release rn uf co vc lo nt) "inProgress" = true
    ∧ (completedOnly lB ++ [new_release rn uf co vc lo nt]).all
        (fun r => !(statusIs r "draft") && !(statusIs r "halted")) = true := by
  refine ⟨?_, List.getLast?_concat _, by rw [statusIs_new_release]; rfl, ?_⟩
  · rw [List.filter_append]
    have hnil : (completedOnly lB).filter (fun r => !(statusIs r "completed")) = [] :=
      List.filter_eq_nil_iff.mpr (fun r hr => by
        simp [statusIs_of_mem_completedOnly hr])
    rw [hnil, List.nil_append]
    simp [List.filter_cons, statusIs_new_release]
  · rw [List.all_append]
    have h1 : (completedOnly lB).all
        (fun r => !(statusIs r "draft") && !(statusIs r "halted")) = true :=
      List.all_eq_true.mpr (fun r hr => by
        have hc := statusIs_of_mem_completedOnly hr
        have hd : statusIs r "draft" = false := statusIs_unique hc (by decide)
        have hh : statusIs r "halted" = false := statusIs_unique hc (by decide)
        simp [hd, hh])
    have h2 : ([new_release rn uf co vc lo nt] : List Dict).all
        (fun r => !(statusIs r "draft") && !(statusIs r "halted")) = true := by
      simp [statusIs_new_release]
    rw [h1, h2]
    rfl

/-- C2 is false as stated: on an input list holding one already-`halted`
release next to the single `inProgress` one, Pass A writes two `halted`
entries, not exactly one. -/
theorem c2_counterexample :
    countStatus exHaltedThenInProgress "inProgress" = 1
    ∧ countStatus (passALoop exHaltedThenInProgress).1 "halted" = 2 := by
  constructor <;> decide

/-- C2 (amended): for every input list with exactly one `inProgress` release
and no `halted` release, Pass A sets the halted-previous flag and its written
list has zero `inProgress` entries, exactly one `halted` entry, zero `draft`
entries, and is the input transformed per entry in original order (drafts
dropped, the `inProgress` entry halted, recognized fields kept). -/
theorem c2_passA_halts_unique (l : List Dict)
    (h1 : countStatus l "inProgress" = 1)
    (h0 : countStatus l "halted" = 0) :
    (passALoop l).2 = true
    ∧ countStatus (passALoop l).1 "inProgress" = 0
    ∧ countStatus (passALoop l).1 "halted" = 1
    ∧ countStatus (passALoop l).1 "draft" = 0
    ∧ (passALoop l).1 = l.filterMap passAEntry := by
  have hip : hasInProgress l = true := by
    have hne : l.filter (fun r => statusIs r "inProgress") ≠ [] := by
      intro he
      unfold countStatus at h1
      rw [he] at h1
      simp at h1
    obtain ⟨r, hr⟩ := List.exists_mem_of_ne_nil _ hne
    rw [List.mem_filter] at hr
    exact List.any_eq_true.mpr ⟨r, hr.1, hr.2⟩
  rw [passALoop_eq]
  exact ⟨hip, passA_count_inProgress l,
    by rw [passA_count_halted, h1, h0], passA_count_draft l, rfl⟩

/-- C2 witness: the amended statement at a concrete two-release list. -/
theorem c2_witness :
    (passALoop exCompletedThenInProgress).2 = true
    ∧ countStatus (passALoop exCompletedThenInProgress).1 "inProgress" = 0
    ∧ countStatus (passALoop exCompletedThenInProgress).1 "halted" = 1
    ∧ countStatus (passALoop exCompletedThenInProgress).1 "draft" = 0
    ∧ (passALoop exCompletedThenInProgress).1
        = exCompletedThenInProgress.filterMap passAEntry :=
  c2_passA_halts_unique exCompletedThenInProgress (by decide) (by decide)

/-- C3: when the Pass-A track fetch returns a list with no `inProgress`
release, the run never updates or commits the first edit, and a successful
run reports `halted_previous = false`. -/
theorem c3_no_write_without_inProgress (env : Env) (args : Args) (tn : String)
    (tA : Track) (ea : String)
    (hA : env.createEditA = .ok ea)
    (hT : env.fetchTrackA = .ok tA)
    (hip : hasInProgress tA.releases = false)
    (hB : ∀ s, env.createEditB = .ok s → s ≠ ea) :
    (runMain env args tn).2.all (fun ev => !(touchesEdit ea ev)) = true
    ∧ (∀ o, (runMain env args tn).1 = .ok o → o.haltedPrevious = false) := by
  have hrm : runMain env args tn
      = runPassB env args tn false [.createEdit, .getTrack ea] := by
    simp [runMain, hA, get_track, hT, hip]
  constructor
  · rw [hrm]
    refine runPassB_no_foreign_writes env args tn false _ ea ?_ hB
    simp [touchesEdit_createEdit, touchesEdit_getTrack]
  · intro o ho
    rw [hrm] at ho
    exact (runPassB_ok_inversion _ _ _ _ _ _ ho).1

/-- C3 witness: the statement at a concrete all-success environment whose
track is empty. -/
theorem c3_witness :
    (runMain envHappy argsEx "production").2.all
        (fun ev => !(touchesEdit "A" ev)) = true
    ∧ MainOutcome.haltedPrevious ⟨"11", false⟩ = false :=
  have h := c3_no_write_without_inProgress envHappy argsEx "production" trackEmpty "A"
    rfl rfl rfl (fun s hs => by
      rw [show envHappy.createEditB = Except.ok "B" from rfl] at hs
      injection hs with h2
      subst h2
      decide)
  ⟨h.1, h.2 ⟨"11", false⟩ rfl⟩

/-- C4: every entry in either written payload (Pass A's halt list, Pass B's
completed-plus-new list) carries only recognized, non-null fields. -/
theorem c4_only_recognized_fields (lA lB : List Dict) (rn uf co vc lo nt : String) :
    (passALoop lA).1.all cleanEntry = true
    ∧ (completedOnly lB ++ [new_release rn uf co vc lo nt]).all cleanEntry = true := by
  constructor
  · rw [passALoop_eq]
    exact List.all_eq_true.mpr (fun d hd => cleanEntry_of_mem_passA hd)
  · rw [List.all_append]
    have h1 : (completedOnly lB).all cleanEntry = true :=
      List.all_eq_true.mpr (fun d hd => cleanEntry_of_mem_completedOnly hd)
    have h2 : ([new_release rn uf co vc lo nt] : List Dict).all cleanEntry = true := by
      simp [cleanEntry_new_release]
    rw [h1, h2]
    rfl

/-- C5 is false as stated: a failing track read is not an abort — `get_track`
absorbs the error and the run still succeeds. -/
theorem c5_counterexample :
    envReadFail.fetchTrackA = .error ⟨418⟩
    ∧ (runMain envReadFail argsEx "production").1 = .ok ⟨"11", false⟩ :=
  ⟨rfl, rfl⟩

/-- C5 (amended): a failing track update or commit in either pass aborts the
whole run with that error (for Pass A the trace stops right at the failing
call; for Pass B the run can never succeed), while a failing track read is
absorbed by `get_track` into an empty release list. -/
theorem c5_failures_abort (env : Env) (args : Args) (tn : String) :
    (∀ (e : ApiError) (t : String),
        get_track (.error e : Except ApiError Track) t = .ok ⟨t, []⟩)
    ∧ (∀ (e : ApiError) (ea : String) (tA : Track),
        env.createEditA = .ok ea → get_track env.fetchTrackA tn = .ok tA →
        hasInProgress tA.releases = true → env.updateTrackA = .error e →
        runMain env args tn =
          (.error e, [.createEdit, .getTrack ea,
            .updateTrack ea (tA.releases.filterMap passAEntry)]))
    ∧ (∀ (e : ApiError) (ea : String) (tA : Track),
        env.createEditA = .ok ea → get_track env.fetchTrackA tn = .ok tA →
        hasInProgress tA.releases = true → env.updateTrackA = .ok () →
        env.commitA = .error e →
        runMain env args tn =
          (.error e, [.createEdit, .getTrack ea,
            .updateTrack ea (tA.releases.filterMap passAEntry), .commitEdit ea]))
    ∧ (∀ e : ApiError, env.updateTrackB = .error e →
        ∀ o : MainOutcome, (runMain env args tn).1 ≠ .ok o)
    ∧ (∀ e : ApiError, env.commitB = .error e →
        ∀ o : MainOutcome, (runMain env args tn).1 ≠ .ok o) := by
  refine ⟨fun e t => rfl, ?_, ?_, ?_, ?_⟩
  · intro e ea tA hA hT hip hu
    simp [runMain, hA, hT, hip, passALoop_eq, hu]
  · intro e ea tA hA hT hip hu hc
    simp [runMain, hA, hT, hip, passALoop_eq, hu, hc]
  · intro e hu o ho
    have h2 := (runMain_ok_inversion env args tn o ho).1
    rw [hu] at h2
    exact Except.noConfusion h2
  · intro e hc o ho
    have h2 := (runMain_ok_inversion env args tn o ho).2
    rw [hc] at h2
    exact Except.noConfusion h2

/-- C5 witness: a failing Pass-A update aborts with its exact trace, and a
failing Pass-B commit prevents success. -/
theorem c5_witness :
    runMain envUpdateAFail argsEx "production" =
      (.error ⟨500⟩, [.createEdit, .getTrack "A",
        .updateTrack "A" (trackInProgress.releases.filterMap passAEntry)])
    ∧ (runMain envCommitBFail argsEx "production").1 ≠ .ok ⟨"11", false⟩ :=
  ⟨(c5_failures_abort envUpdateAFail argsEx "production").2.1 ⟨500⟩ "A"
      trackInProgress rfl rfl rfl rfl,
   (c5_failures_abort envCommitBFail argsEx "production").2.2.2.2 ⟨503⟩ rfl
      ⟨"11", false⟩⟩

/-- C6: a failed track fetch is absorbed by `get_track` into a track with an
empty release list, so the run behaves exactly as if both fetches had
returned empty tracks: Pass A sees no `inProgress` release and Pass B sees no
`completed` release. -/
theorem c6_get_track_absorbs (env : Env) (args : Args) (tn : String)
    (e1 e2 : ApiError)
    (h1 : env.fetchTrackA = .error e1) (h2 : env.fetchTrackB = .error e2) :
    get_track env.fetchTrackA tn = .ok ⟨tn, []⟩
    ∧ hasInProgress (Track.mk tn []).releases = false
    ∧ completedOnly (Track.mk tn []).releases = []
    ∧ runMain env args tn
        = runMain (envWithFetches env (.ok ⟨tn, []⟩) (.ok ⟨tn, []⟩)) args tn := by
  obtain ⟨cA, fA, uA, cmA, cB, ub, us, fB, uB, cmB⟩ := env
  have h1' : fA = Except.error e1 := h1
  have h2' : fB = Except.error e2 := h2
  subst h1'
  subst h2'
  refine ⟨rfl, rfl, rfl, ?_⟩
  rcases cA with e | ea
  · rfl
  · rcases cB with e' | eb
    · rfl
    · rcases ub with e' | vc
      · rfl
      · rcases us with e' | u
        · rfl
        · rcases uB with e' | u4
          · rfl
          · rcases cmB with e' | u5 <;> rfl

/-- C6 witness: the statement at a concrete environment whose two track reads
fail. -/
theorem c6_witness :
    get_track envBothReadsFail.fetchTrackA "production" = .ok ⟨"production", []⟩
    ∧ hasInProgress (Track.mk "production" []).releases = false
    ∧ completedOnly (Track.mk "production" []).releases = []
    ∧ runMain envBothReadsFail argsEx "production"
        = runMain (envWithFetches envBothReadsFail (.ok ⟨"production", []⟩)
            (.ok ⟨"production", []⟩)) argsEx "production" :=
  c6_get_track_absorbs envBothReadsFail argsEx "production" ⟨404⟩ ⟨404⟩ rfl rfl

/-- C7: the single new release entry built in Pass B carries the given
display name, status `inProgress`, the user fraction parsed as a float,
country targeting restricted to exactly the one given country with rest of
world excluded, exactly the newly uploaded version code, one release-note
entry for the computed locale with whitespace-stripped text, and update
priority 0. -/
theorem c7_new_release_fields (args : Args) (version_code : String) :
    lookup (new_release args.releaseName args.userFraction args.country version_code
        (infer_locale_from_whatsnew args.notesFilePath) (pyStrip args.notesFileContent))
      "name" = some (JVal.str args.releaseName)
    ∧ lookup (new_release args.releaseName args.userFraction args.country version_code
        (infer_locale_from_whatsnew args.notesFilePath) (pyStrip args.notesFileContent))
      "status" = some (JVal.str "inProgress")
    ∧ lookup (new_release args.releaseName args.userFraction args.country version_code
        (infer_locale_from_whatsnew args.notesFilePath) (pyStrip args.notesFileContent))
      "userFraction" = some (JVal.num (pyFloat args.userFraction))
    ∧ lookup (new_release args.releaseName args.userFraction args.country version_code
        (infer_locale_from_whatsnew args.notesFilePath) (pyStrip args.notesFileContent))
      "countryTargeting" = some (JVal.obj
        [("countries", JVal.arr [JVal.str args.country]),
         ("includeRestOfWorld", JVal.bool false)])
    ∧ lookup (new_release args.releaseName args.userFraction args.country version_code
        (infer_locale_from_whatsnew args.notesFilePath) (pyStrip args.notesFileContent))
      "versionCodes" = some (JVal.arr [JVal.str version_code])
    ∧ lookup (new_release args.releaseName args.userFraction args.country version_code
        (infer_locale_from_whatsnew args.notesFilePath) (pyStrip args.notesFileContent))
      "releaseNotes" = some (JVal.arr
        [JVal.obj [("language", JVal.str (infer_locale_from_whatsnew args.notesFilePath)),
          ("text", JVal.str (pyStrip args.notesFileContent))]])
    ∧ lookup (new_release args.releaseName args.userFraction args.country version_code
        (infer_locale_from_whatsnew args.notesFilePath) (pyStrip args.notesFileContent))
      "inAppUpdatePriority" = some (JVal.num 0) :=
  ⟨rfl, rfl, rfl, rfl, rfl, rfl, rfl⟩

/-- C8: the bundle is uploaded first; the symbols upload happens only when
the bundle upload succeeded and is addressed to exactly the version code the
bundle upload returned; either upload failing yields that API error. -/
theorem c8_upload_order (env : Env) (eid : String) :
    (∀ e : ApiError, env.uploadBundleRes = .error e →
        upload_bundle_and_symbols env eid = (.error e, [.uploadBundle eid]))
    ∧ (∀ vc : Nat, env.uploadBundleRes = .ok vc →
        (upload_bundle_and_symbols env eid).2
            = [.uploadBundle eid, .uploadSymbols eid (toString vc)]
        ∧ (∀ e : ApiError, env.uploadSymbolsRes = .error e →
            (upload_bundle_and_symbols env eid).1 = .error e)
        ∧ (env.uploadSymbolsRes = .ok () →
            (upload_bundle_and_symbols env eid).1 = .ok (toString vc))) := by
  constructor
  · intro e h
    simp [upload_bundle_and_symbols, h]
  · intro vc h
    refine ⟨?_, ?_, ?_⟩
    · rcases hus : env.uploadSymbolsRes with e2 | u <;>
        simp [upload_bundle_and_symbols, h, hus]
    · intro e hus
      simp [upload_bundle_and_symbols, h, hus]
    · intro hus
      simp [upload_bundle_and_symbols, h, hus]

/-- C8 witness: a failing bundle upload aborts before the symbols upload, and
on success the symbols upload targets the returned version code. -/
theorem c8_witness :
    upload_bundle_and_symbols envUploadFail "B" = (.error ⟨507⟩, [.uploadBundle "B"])
    ∧ (upload_bundle_and_symbols envHappy "B").2
        = [.uploadBundle "B", .uploadSymbols "B" "11"]
    ∧ (upload_bundle_and_symbols envHappy "B").1 = .ok "11" :=
  ⟨(c8_upload_order envUploadFail "B").1 ⟨507⟩ rfl,
   ((c8_upload_order envHappy "B").2 11 rfl).1,
   ((c8_upload_order envHappy "B").2 11 rfl).2.2 rfl⟩

/-- C9: a notes string longer than 2800 code points truncates to exactly 2800
code points whose last one is the ellipsis, and a string of at most 2800 code
points passes through unchanged. -/
theorem c9_truncate_2800 (s : String) :
    (2800 < s.toList.length →
      (truncate_unicode s 2800).toList.length = 2800
      ∧ (truncate_unicode s 2800).toList.getLast? = some '…')
    ∧ (s.toList.length ≤ 2800 → truncate_unicode s 2800 = s) := by
  constructor
  · intro h
    have hnot : ¬ (s.toList.length ≤ 2800) := by omega
    have hgt : ¬ ((2800 : Nat) ≤ 1) := by omega
    have hrw : truncate_unicode s 2800
        = String.mk (s.toList.take (2800 - 1)) ++ "…" := by
      simp only [truncate_unicode]
      rw [if_neg hnot, if_neg hgt]
    rw [hrw]
    have hlist : (String.mk (s.toList.take (2800 - 1)) ++ "…").toList
        = s.toList.take (2800 - 1) ++ ['…'] := rfl
    rw [hlist]
    constructor
    · rw [List.length_append, List.length_take]
      simp only [List.length_cons, List.length_nil]
      omega
    · exact List.getLast?_concat _
  · intro h
    simp only [truncate_unicode]
    rw [if_pos h]

/-- C9 witness: a 2801-code-point string truncates to 2800 with a trailing
ellipsis; a short string passes through. -/
theorem c9_witness :
    (truncate_unicode (String.mk (List.replicate 2801 'a')) 2800).toList.length = 2800
    ∧ (truncate_unicode (String.mk (List.replicate 2801 'a')) 2800).toList.getLast?
        = some '…'
    ∧ truncate_unicode "ab" 2800 = "ab" :=
  have h1 := (c9_truncate_2800 (String.mk (List.replicate 2801 'a'))).1 (by
    have hl : (String.mk (List.replicate 2801 'a')).toList
        = List.replicate 2801 'a' := rfl
    rw [hl, List.length_replicate]
    omega)
  ⟨h1.1, h1.2, (c9_truncate_2800 "ab").2 (by decide)⟩

/-- C10: a notes path whose final `/`-separated segment has the form
`whatsnew-<LOCALE>` yields locale `<LOCALE>`, any other path yields `en-US`;
in particular `whatsnew-fr-FR` gives `fr-FR` and `release-notes.txt` gives
`en-US`. -/
theorem c10_locale_inference (path locale : String) :
    ((splitChar '/' path.toList).getLastD [] = ("whatsnew-" ++ locale).toList →
      infer_locale_from_whatsnew path = locale)
    ∧ ((∀ l : String,
          (splitChar '/' path.toList).getLastD [] ≠ ("whatsnew-" ++ l).toList) →
      infer_locale_from_whatsnew path = "en-US")
    ∧ infer_locale_from_whatsnew "whatsnew-fr-FR" = "fr-FR"
    ∧ infer_locale_from_whatsnew "release-notes.txt" = "en-US" := by
  refine ⟨?_, ?_, by decide, by decide⟩
  · intro h
    simp only [infer_locale_from_whatsnew]
    rw [h]
    have hsplit : ("whatsnew-" ++ locale).toList
        = "whatsnew-".toList ++ locale.toList := rfl
    rw [hsplit]
    have hpre : "whatsnew-".toList.isPrefixOf
        ("whatsnew-".toList ++ locale.toList) = true := by
      rw [List.isPrefixOf_iff_prefix]
      exact List.prefix_append _ _
    rw [if_pos hpre]
    have hdrop : ("whatsnew-".toList ++ locale.toList).drop "whatsnew-".length
        = locale.toList := by
      have hlen : "whatsnew-".length = "whatsnew-".toList.length := rfl
      rw [hlen, List.drop_left]
    rw [hdrop]
    rfl
  · intro h
    simp only [infer_locale_from_whatsnew]
    cases hpre : "whatsnew-".toList.isPrefixOf
        ((splitChar '/' path.toList).getLastD []) with
    | false => rfl
    | true =>
        exfalso
        rw [List.isPrefixOf_iff_prefix] at hpre
        obtain ⟨t, ht⟩ := hpre
        exact h (String.mk t) (by rw [← ht]; rfl)

/-- C10 witness: the two shapes at concrete paths. -/
theorem c10_witness :
    infer_locale_from_whatsnew "dir/whatsnew-pt-BR" = "pt-BR"
    ∧ infer_locale_from_whatsnew "notes.txt" = "en-US" :=
  ⟨(c10_locale_inference "dir/whatsnew-pt-BR" "pt-BR").1 (by decide),
   (c10_locale_inference "notes.txt" "x").2.1 (fun l hl => by
      have hc : ('n' : Char) = 'w' := congrArg (fun t => t.headD ' ') hl
      exact absurd hc (by decide))⟩
